import Mathlib

/-!
Verification of the GP-regression WiFi localization notebook.

A shallow embedding of the repository-authored logic of
`Homework/GP regression/GP regression.ipynb`:

* the scalar Gaussian log-density value computed by
  `scipy.stats.multivariate_normal.logpdf(x, m, c)` (third argument is the
  covariance of the distribution);
* the MAP grid-scorer loop (`sum[p] += logpdf(RSS, mean[p,k], sqrt(var[p,k]))`
  guarded by `~np.isnan(RSS)`, followed by `np.argmax` and a grid lookup);
* the per-AP GP fitting threshold (`if X.shape[0] > 10`);
* per-location scan averaging with `np.nanmean`;
* the grid construction from `np.linspace`/`np.meshgrid` over the bounding
  box of the surveyed coordinates;
* Euclidean error computation and 10-fold cross-validation averaging;
* the contiguous fold partition produced by `sklearn` `KFold(n_splits=10)`.

Missing float readings (`NaN`) are modelled as `Option ℝ` with `none` for
`NaN`; real arithmetic is over `ℝ`.
-/

namespace MDA

noncomputable section

/-- Value of `scipy.stats.multivariate_normal.logpdf (x, m, c)` in the scalar
case with covariance `c > 0`: `-(log (2*π*c))/2 - (x-m)^2/(2*c)`.  The source
passes `math.sqrt(var[p,k])` as `c`. -/
def mvnLogpdfVal (x m c : ℝ) : ℝ :=
  -(Real.log (2 * Real.pi * c)) / 2 - (x - m) ^ 2 / (2 * c)

/-- The inner MAP scorer loop for one grid point `p`: starting from `sum[p]=0`,
loop `k` over `range GP_num`, read `RSS = Y_test[num, GP_index[k]]`, and when
it is not `NaN`, add `logpdf(RSS, mean[p,k], sqrt(var[p,k]))`. -/
def logpdfSum (obs : ℕ → Option ℝ) (mean var : ℕ → ℕ → ℝ)
    (gpIndex : List ℕ) (p : ℕ) : ℝ :=
  (List.range gpIndex.length).foldl
    (fun s k =>
      match obs (gpIndex.getD k 0) with
      | none => s
      | some rss => s + mvnLogpdfVal rss (mean p k) (Real.sqrt (var p k)))
    0

/-- Embedding of `np.argmax` over the values `s 0, …, s (n-1)`: the first index attaining
the maximum (the running best is replaced only on a strictly greater value). -/
def npArgmax (s : ℕ → ℝ) : ℕ → ℕ
  | 0 => 0
  | n + 1 => if s (npArgmax s n) < s n then n else npArgmax s n

/-- One entry of `Y_hat`: `max_index = np.argmax(sum)`, then
`Y_hat[num] = grid[max_index]`. -/
def mapEstimate (grid : ℕ → ℝ × ℝ) (nGrid : ℕ) (mean var : ℕ → ℕ → ℝ)
    (gpIndex : List ℕ) (obs : ℕ → Option ℝ) : ℝ × ℝ :=
  grid (npArgmax (logpdfSum obs mean var gpIndex) nGrid)

/-- Spec-side scorer, following the spec's words: the sum, over the fitted
APs whose observation for this sample is present (non-`NaN`), of the
univariate Gaussian log-density of the observed RSS value taken with the grid
point's predicted mean and the square root of its predicted variance. -/
def specScore (obs : ℕ → Option ℝ) (mean var : ℕ → ℕ → ℝ)
    (gpIndex : List ℕ) (p : ℕ) : ℝ :=
  ((List.range gpIndex.length).filterMap
    (fun k => (obs (gpIndex.getD k 0)).map
      (fun rss => mvnLogpdfVal rss (mean p k) (Real.sqrt (var p k))))).sum

/-- Accumulating fold of optional contributions equals the starting value plus
the sum of the present contributions. -/
lemma foldl_optAdd_eq_sum (g : ℕ → Option ℝ) (f : ℕ → ℝ → ℝ) (l : List ℕ)
    (s : ℝ) :
    l.foldl (fun acc k => match g k with
      | none => acc
      | some rss => acc + f k rss) s
      = s + (l.filterMap (fun k => (g k).map (f k))).sum := by
  induction l generalizing s with
  | nil => simp
  | cons a l ih =>
      cases h : g a with
      | none => simp [List.foldl_cons, h, ih]
      | some v => simp [List.foldl_cons, h, ih, add_assoc]

/-- The scorer loop computes the filtered sum of Gaussian log-densities. -/
lemma logpdfSum_eq_specScore (obs : ℕ → Option ℝ) (mean var : ℕ → ℕ → ℝ)
    (gpIndex : List ℕ) (p : ℕ) :
    logpdfSum obs mean var gpIndex p = specScore obs mean var gpIndex p := by
  unfold logpdfSum specScore
  rw [foldl_optAdd_eq_sum (fun k => obs (gpIndex.getD k 0))
    (fun k rss => mvnLogpdfVal rss (mean p k) (Real.sqrt (var p k)))]
  simp

/-- The result of `npArgmax` lies below the length whenever there is one. -/
lemma npArgmax_lt (s : ℕ → ℝ) : ∀ n : ℕ, 0 < n → npArgmax s n < n := by
  intro n
  induction n with
  | zero => intro h; exact absurd h (lt_irrefl 0)
  | succ n ih =>
      intro _
      unfold npArgmax
      by_cases h : s (npArgmax s n) < s n
      · simp [h]
      · simp only [h, if_false]
        rcases Nat.eq_zero_or_pos n with hn | hn
        · subst hn; simp [npArgmax]
        · exact Nat.lt_succ_of_lt (ih hn)

/-- The value at `npArgmax` is maximal among the scanned indices. -/
lemma le_npArgmax (s : ℕ → ℝ) : ∀ n : ℕ, ∀ i < n, s i ≤ s (npArgmax s n) := by
  intro n
  induction n with
  | zero => intro i hi; exact absurd hi (Nat.not_lt_zero i)
  | succ n ih =>
      intro i hi
      unfold npArgmax
      by_cases h : s (npArgmax s n) < s n
      · simp only [h, if_true]
        rcases Nat.lt_succ_iff_lt_or_eq.mp hi with hi' | hi'
        · exact le_trans (ih i hi') (le_of_lt h)
        · subst hi'; exact le_refl _
      · simp only [h, if_false]
        rcases Nat.lt_succ_iff_lt_or_eq.mp hi with hi' | hi'
        · exact ih i hi'
        · subst hi'; exact le_of_not_lt h

/-- On an all-zero score vector `np.argmax` returns index `0`. -/
lemma npArgmax_zero_of_all_zero (s : ℕ → ℝ) :
    ∀ n : ℕ, (∀ i < n, s i = 0) → npArgmax s n = 0 := by
  intro n
  induction n with
  | zero => intro _; rfl
  | succ n ih =>
      intro h
      unfold npArgmax
      have hn : s n = 0 := h n (Nat.lt_succ_self n)
      rcases Nat.eq_zero_or_pos n with h0 | h0
      · subst h0; simp [npArgmax]
      · have ham : npArgmax s n = 0 := ih (fun i hi => h i (Nat.lt_succ_of_lt hi))
        have h00 : s 0 = 0 := h 0 (Nat.lt_of_lt_of_le h0 (Nat.le_succ n))
        rw [ham, h00, hn]
        simp

/-- If `s` has a strict maximum at `g`, `np.argmax` returns `g`. -/
lemma npArgmax_eq_of_strictMax (s : ℕ → ℝ) (n g : ℕ) (hg : g < n)
    (h : ∀ j < n, j ≠ g → s j < s g) : npArgmax s n = g := by
  have hpos : 0 < n := Nat.lt_of_le_of_lt (Nat.zero_le g) hg
  by_contra hne
  have hlt := h (npArgmax s n) (npArgmax_lt s n hpos) hne
  have hle := le_npArgmax s n g hg
  exact absurd hle (not_le_of_lt hlt)

/-- `np.argmax` only depends on the scanned values. -/
lemma npArgmax_congr (s t : ℕ → ℝ) :
    ∀ n : ℕ, (∀ i < n, s i = t i) → npArgmax s n = npArgmax t n := by
  intro n
  induction n with
  | zero => intro _; rfl
  | succ n ih =>
      intro h
      have hrec : npArgmax s n = npArgmax t n :=
        ih (fun i hi => h i (Nat.lt_succ_of_lt hi))
      unfold npArgmax
      rcases Nat.eq_zero_or_pos n with h0 | h0
      · subst h0; simp [npArgmax]
      · have hv : s (npArgmax t n) = t (npArgmax t n) :=
          h _ (Nat.lt_succ_of_lt (npArgmax_lt t n h0))
        rw [hrec, hv, h n (Nat.lt_succ_self n)]

/-- An in-bounds `getD` returns a member of the list. -/
lemma getD_mem_of_lt (l : List ℕ) (k : ℕ) (hk : k < l.length) :
    l.getD k 0 ∈ l := by
  induction l generalizing k with
  | nil => exact absurd hk (Nat.not_lt_zero k)
  | cons a l ih =>
      cases k with
      | zero => simp [List.getD]
      | succ k =>
          have hk' : k < l.length := Nat.lt_of_succ_lt_succ hk
          simpa [List.getD] using Or.inr (ih k hk')

/-- If every fitted AP's observation is missing, every grid point's summed
log-density is zero. -/
lemma logpdfSum_eq_zero_of_all_missing (obs : ℕ → Option ℝ)
    (mean var : ℕ → ℕ → ℝ) (gpIndex : List ℕ)
    (hobs : ∀ i ∈ gpIndex, obs i = none) (p : ℕ) :
    logpdfSum obs mean var gpIndex p = 0 := by
  rw [logpdfSum_eq_specScore]
  unfold specScore
  have hnil : (List.range gpIndex.length).filterMap
      (fun k => (obs (gpIndex.getD k 0)).map
        (fun rss => mvnLogpdfVal rss (mean p k) (Real.sqrt (var p k)))) = [] := by
    rw [List.filterMap_eq_nil_iff]
    intro k hk
    have hk' : k < gpIndex.length := List.mem_range.mp hk
    rw [hobs _ (getD_mem_of_lt gpIndex k hk')]
    rfl
  rw [hnil]
  rfl

/-- **C1.** For every test sample and grid, the MAP scorer computes at each
grid point the sum, over the fitted APs with a present (non-`NaN`)
observation, of the Gaussian log-density of the observed RSS value taken with
that grid point's predicted mean and the square root of its predicted
variance — missing observations are skipped — and returns the coordinates of
the grid point whose index maximizes this summed log-density. -/
theorem mapScorer_argmax_of_summed_logpdf
    (grid : ℕ → ℝ × ℝ) (nGrid : ℕ) (mean var : ℕ → ℕ → ℝ)
    (gpIndex : List ℕ) (obs : ℕ → Option ℝ) (h : 0 < nGrid) :
    (∀ p, logpdfSum obs mean var gpIndex p = specScore obs mean var gpIndex p)
    ∧ npArgmax (specScore obs mean var gpIndex) nGrid < nGrid
    ∧ (∀ p < nGrid, specScore obs mean var gpIndex p
        ≤ specScore obs mean var gpIndex
            (npArgmax (specScore obs mean var gpIndex) nGrid))
    ∧ mapEstimate grid nGrid mean var gpIndex obs
        = grid (npArgmax (specScore obs mean var gpIndex) nGrid) := by
  have heq : ∀ p, logpdfSum obs mean var gpIndex p
      = specScore obs mean var gpIndex p :=
    fun p => logpdfSum_eq_specScore obs mean var gpIndex p
  refine ⟨heq, npArgmax_lt _ nGrid h, ?_, ?_⟩
  · intro p hp
    exact le_npArgmax (specScore obs mean var gpIndex) nGrid p hp
  · unfold mapEstimate
    rw [npArgmax_congr (logpdfSum obs mean var gpIndex)
      (specScore obs mean var gpIndex) nGrid (fun i _ => heq i)]

/-- Concrete instance of `mapScorer_argmax_of_summed_logpdf`. -/
theorem mapScorer_argmax_of_summed_logpdf_witness :
    mapEstimate (fun k => ((k : ℝ), 0)) 3 (fun _ _ => 0) (fun _ _ => 1) [0]
        (fun _ => some 0)
      = (fun k => ((k : ℝ), 0))
          (npArgmax (specScore (fun _ => some 0) (fun _ _ => 0)
            (fun _ _ => 1) [0]) 3) :=
  (mapScorer_argmax_of_summed_logpdf (fun k => ((k : ℝ), 0)) 3 (fun _ _ => 0)
    (fun _ _ => 1) [0] (fun _ => some 0) (by norm_num)).2.2.2

/-- **C2.** If a sample has no observed RSS entry among the fitted APs, the
summed log-density is zero at every grid point and the scorer deterministically
returns the first grid point's coordinates. -/
theorem all_missing_returns_first_grid_point
    (grid : ℕ → ℝ × ℝ) (nGrid : ℕ) (mean var : ℕ → ℕ → ℝ)
    (gpIndex : List ℕ) (obs : ℕ → Option ℝ) (_hn : 0 < nGrid)
    (hobs : ∀ i ∈ gpIndex, obs i = none) :
    (∀ p, logpdfSum obs mean var gpIndex p = 0)
    ∧ mapEstimate grid nGrid mean var gpIndex obs = grid 0 := by
  have hz : ∀ p, logpdfSum obs mean var gpIndex p = 0 :=
    logpdfSum_eq_zero_of_all_missing obs mean var gpIndex hobs
  refine ⟨hz, ?_⟩
  unfold mapEstimate
  rw [npArgmax_zero_of_all_zero (logpdfSum obs mean var gpIndex) nGrid
    (fun i _ => hz i)]

/-- Concrete instance of `all_missing_returns_first_grid_point`. -/
theorem all_missing_returns_first_grid_point_witness :
    mapEstimate (fun k => ((k : ℝ), (k : ℝ))) 5 (fun _ _ => 2) (fun _ _ => 3)
        [0, 1] (fun _ => none)
      = ((0 : ℝ), (0 : ℝ)) := by
  simpa using (all_missing_returns_first_grid_point (fun k => ((k : ℝ), (k : ℝ)))
    5 (fun _ _ => 2) (fun _ _ => 3) [0, 1] (fun _ => none) (by norm_num)
    (fun i _ => rfl)).2

/-! ## GP fitting threshold (C3) -/

/-- Number of training locations whose averaged RSS for AP `i` is present
(non-`NaN`): the row count `X.shape[0]` of `X_train[~np.isnan(Y_train[:,i])]`. -/
def supportCount (Y_train : ℕ → ℕ → Option ℝ) (num_loc i : ℕ) : ℕ :=
  (List.range num_loc).countP (fun j => (Y_train j i).isSome)

/-- The GP fitting loop: for `i in range(num_AP)`, a regressor is fitted and
`i` appended to `GP_index` exactly when `X.shape[0] > 10`. -/
def GP_fit_index (Y_train : ℕ → ℕ → Option ℝ) (num_loc num_AP : ℕ) : List ℕ :=
  (List.range num_AP).filter (fun i => decide (10 < supportCount Y_train num_loc i))

/-- The scorer only reads observations of fitted APs. -/
lemma logpdfSum_congr_obs (obs obs' : ℕ → Option ℝ) (mean var : ℕ → ℕ → ℝ)
    (gpIndex : List ℕ) (p : ℕ) (h : ∀ i ∈ gpIndex, obs i = obs' i) :
    logpdfSum obs mean var gpIndex p = logpdfSum obs' mean var gpIndex p := by
  unfold logpdfSum
  apply List.foldl_ext
  intro s k hk
  rw [h _ (getD_mem_of_lt gpIndex k (List.mem_range.mp hk))]

/-- **C3.** A regressor is fitted for AP `i` iff strictly more than 10
training locations have a present averaged RSS for `i`; readings of the other
APs never influence the MAP score. -/
theorem regressor_iff_support_above_threshold
    (Y_train : ℕ → ℕ → Option ℝ) (num_loc num_AP : ℕ) :
    (∀ i, i ∈ GP_fit_index Y_train num_loc num_AP
        ↔ i < num_AP ∧ 10 < supportCount Y_train num_loc i)
    ∧ (∀ (obs obs' : ℕ → Option ℝ) (mean var : ℕ → ℕ → ℝ) (p : ℕ),
        (∀ i ∈ GP_fit_index Y_train num_loc num_AP, obs i = obs' i) →
        logpdfSum obs mean var (GP_fit_index Y_train num_loc num_AP) p
          = logpdfSum obs' mean var (GP_fit_index Y_train num_loc num_AP) p) := by
  constructor
  · intro i
    simp [GP_fit_index, List.mem_filter, List.mem_range]
  · intro obs obs' mean var p h
    exact logpdfSum_congr_obs obs obs' mean var _ p h

/-- Concrete instance of `regressor_iff_support_above_threshold`: an obs
vector altered outside the fitted APs leaves the score unchanged. -/
theorem regressor_iff_support_above_threshold_witness :
    logpdfSum (fun i => if i = 0 then some 5 else some 7) (fun _ _ => 0)
        (fun _ _ => 1) (GP_fit_index (fun _ _ => some 0) 11 1) 0
      = logpdfSum (fun i => if i = 0 then some 5 else none) (fun _ _ => 0)
        (fun _ _ => 1) (GP_fit_index (fun _ _ => some 0) 11 1) 0 :=
  (regressor_iff_support_above_threshold (fun _ _ => some 0) 11 1).2 _ _ _ _ 0
    (by
      intro i hi
      have h1 := ((regressor_iff_support_above_threshold
        (fun _ _ => some 0) 11 1).1 i).mp hi
      have h0 : i = 0 := Nat.lt_one_iff.mp h1.1
      subst h0
      rfl)

/-! ## Variance monotonicity of the density contribution (C4) -/

/-- The claimed monotone decrease of the scorer's log-density contribution in
the variance fails: with `obs = 10`, `mean = 0`, `v1 = 1 < v2 = 16`, the
contribution at the larger variance is strictly larger. -/
theorem variance_monotonicity_counterexample :
    (0:ℝ) < 1 ∧ (1:ℝ) < 16 ∧ |(10:ℝ) - 0| ≠ 0
    ∧ ¬ (mvnLogpdfVal 10 0 (Real.sqrt 16) ≤ mvnLogpdfVal 10 0 (Real.sqrt 1)) := by
  have h16 : Real.sqrt 16 = 4 := by
    rw [show (16:ℝ) = 4 ^ 2 by norm_num, Real.sqrt_sq (by norm_num : (0:ℝ) ≤ 4)]
  have h1 : Real.sqrt 1 = 1 := Real.sqrt_one
  have hlog4 : Real.log 4 < 75 :=
    lt_of_le_of_lt (Real.log_le_sub_one_of_pos (by norm_num)) (by norm_num)
  have hmul : Real.log (2 * Real.pi * 4)
      = Real.log 4 + Real.log (2 * Real.pi) := by
    rw [show (2:ℝ) * Real.pi * 4 = 4 * (2 * Real.pi) by ring,
      Real.log_mul (by norm_num) (by positivity)]
  refine ⟨by norm_num, by norm_num, by norm_num, ?_⟩
  rw [not_le, h16, h1]
  unfold mvnLogpdfVal
  rw [mul_one, hmul]
  norm_num
  linarith [hlog4]

/-- **C4 (amended).** The scorer's log-density contribution decreases when the
variance grows, provided the squared residual is at most the smaller
variance's square root (the covariance actually passed to the density); in
general the contribution first rises with the variance, as
`variance_monotonicity_counterexample` shows. -/
theorem variance_monotonicity_amended (x m v1 v2 : ℝ)
    (_hne : |x - m| ≠ 0) (h1 : 0 < v1) (h12 : v1 < v2)
    (hd : (x - m) ^ 2 ≤ Real.sqrt v1) :
    mvnLogpdfVal x m (Real.sqrt v2) ≤ mvnLogpdfVal x m (Real.sqrt v1) := by
  have hc1 : 0 < Real.sqrt v1 := Real.sqrt_pos.mpr h1
  have hc12 : Real.sqrt v1 < Real.sqrt v2 := Real.sqrt_lt_sqrt h1.le h12
  have hc2 : 0 < Real.sqrt v2 := lt_trans hc1 hc12
  have hd2 : (0:ℝ) ≤ (x - m) ^ 2 := sq_nonneg _
  have hlog : 1 - Real.sqrt v1 / Real.sqrt v2
      ≤ Real.log (Real.sqrt v2) - Real.log (Real.sqrt v1) := by
    have hle := Real.log_le_sub_one_of_pos (div_pos hc1 hc2)
    rw [Real.log_div hc1.ne' hc2.ne'] at hle
    linarith
  have hkey : (x - m) ^ 2 * (Real.sqrt v2 - Real.sqrt v1)
      ≤ (Real.log (Real.sqrt v2) - Real.log (Real.sqrt v1))
          * (Real.sqrt v1 * Real.sqrt v2) := by
    have e1 : (1 - Real.sqrt v1 / Real.sqrt v2) * (Real.sqrt v1 * Real.sqrt v2)
        = Real.sqrt v1 * (Real.sqrt v2 - Real.sqrt v1) := by
      field_simp
      ring
    calc (x - m) ^ 2 * (Real.sqrt v2 - Real.sqrt v1)
        ≤ Real.sqrt v1 * (Real.sqrt v2 - Real.sqrt v1) :=
          mul_le_mul_of_nonneg_right hd (by linarith)
      _ = (1 - Real.sqrt v1 / Real.sqrt v2) * (Real.sqrt v1 * Real.sqrt v2) :=
          e1.symm
      _ ≤ (Real.log (Real.sqrt v2) - Real.log (Real.sqrt v1))
            * (Real.sqrt v1 * Real.sqrt v2) :=
          mul_le_mul_of_nonneg_right hlog (by positivity)
  have hpos : (0:ℝ) < 2 * Real.sqrt v1 * Real.sqrt v2 := by positivity
  have hne1 : Real.sqrt v1 ≠ 0 := hc1.ne'
  have hne2 : Real.sqrt v2 ≠ 0 := hc2.ne'
  have h3 : (x - m) ^ 2 * (Real.sqrt v2 - Real.sqrt v1)
        / (2 * Real.sqrt v1 * Real.sqrt v2)
      ≤ (Real.log (Real.sqrt v2) - Real.log (Real.sqrt v1))
          * (Real.sqrt v1 * Real.sqrt v2)
        / (2 * Real.sqrt v1 * Real.sqrt v2) :=
    (div_le_div_iff_of_pos_right hpos).mpr hkey
  have h4 : (Real.log (Real.sqrt v2) - Real.log (Real.sqrt v1))
          * (Real.sqrt v1 * Real.sqrt v2)
        / (2 * Real.sqrt v1 * Real.sqrt v2)
      = (Real.log (Real.sqrt v2) - Real.log (Real.sqrt v1)) / 2 := by
    field_simp
    ring
  have h5 : (x - m) ^ 2 * (Real.sqrt v2 - Real.sqrt v1)
        / (2 * Real.sqrt v1 * Real.sqrt v2)
      = (x - m) ^ 2 / (2 * Real.sqrt v1) - (x - m) ^ 2 / (2 * Real.sqrt v2) := by
    field_simp
    ring
  rw [h4, h5] at h3
  have hpi : (0:ℝ) < 2 * Real.pi := by positivity
  unfold mvnLogpdfVal
  rw [Real.log_mul hpi.ne' hne2, Real.log_mul hpi.ne' hne1]
  linarith [h3]

/-- Concrete instance of `variance_monotonicity_amended`. -/
theorem variance_monotonicity_amended_witness :
    mvnLogpdfVal 1 0 (Real.sqrt 4) ≤ mvnLogpdfVal 1 0 (Real.sqrt 1) :=
  variance_monotonicity_amended 1 0 1 4 (by norm_num) (by norm_num) (by norm_num)
    (by rw [Real.sqrt_one]; norm_num)

/-! ## Selection of an exact-mean, lowest-variance grid point (C9) -/

/-- With a single fitted AP the score at `p` is one Gaussian log-density. -/
lemma logpdfSum_single (obs : ℕ → Option ℝ) (mean var : ℕ → ℕ → ℝ)
    (i p : ℕ) (x : ℝ) (hobs : obs i = some x) :
    logpdfSum obs mean var [i] p
      = mvnLogpdfVal x (mean p 0) (Real.sqrt (var p 0)) := by
  simp [logpdfSum, hobs, List.range_succ]

/-- **C9.** For a sample observed on a single fitted AP whose observation
equals the predicted mean at grid point `g`, if the predicted variance at `g`
is positive and smaller than at every other grid point, the scorer selects
`g` (the Gaussian log-density is maximized at the mean). -/
theorem exact_mean_lowest_variance_selected
    (grid : ℕ → ℝ × ℝ) (nGrid : ℕ) (mean var : ℕ → ℕ → ℝ) (i g : ℕ)
    (obs : ℕ → Option ℝ) (hg : g < nGrid)
    (hobs : obs i = some (mean g 0)) (hv : 0 < var g 0)
    (hlt : ∀ p < nGrid, p ≠ g → var g 0 < var p 0) :
    mapEstimate grid nGrid mean var [i] obs = grid g := by
  have hstrict : ∀ p < nGrid, p ≠ g →
      logpdfSum obs mean var [i] p < logpdfSum obs mean var [i] g := by
    intro p hp hne
    rw [logpdfSum_single obs mean var i p _ hobs,
      logpdfSum_single obs mean var i g _ hobs]
    have hcg : 0 < Real.sqrt (var g 0) := Real.sqrt_pos.mpr hv
    have hcp : Real.sqrt (var g 0) < Real.sqrt (var p 0) :=
      Real.sqrt_lt_sqrt hv.le (hlt p hp hne)
    have hcp0 : 0 < Real.sqrt (var p 0) := lt_trans hcg hcp
    have hpi : (0:ℝ) < 2 * Real.pi := by positivity
    have hlog : Real.log (2 * Real.pi * Real.sqrt (var g 0))
        < Real.log (2 * Real.pi * Real.sqrt (var p 0)) :=
      Real.log_lt_log (mul_pos hpi hcg) (by nlinarith)
    have hdiv : (0:ℝ) ≤ (mean g 0 - mean p 0) ^ 2 / (2 * Real.sqrt (var p 0)) :=
      div_nonneg (sq_nonneg _) (by linarith)
    unfold mvnLogpdfVal
    rw [sub_self, zero_pow (by norm_num : 2 ≠ 0), zero_div]
    linarith
  unfold mapEstimate
  rw [npArgmax_eq_of_strictMax (logpdfSum obs mean var [i]) nGrid g hg hstrict]

/-- Concrete instance of `exact_mean_lowest_variance_selected`. -/
theorem exact_mean_lowest_variance_selected_witness :
    mapEstimate (fun k => ((k : ℝ), 0)) 2 (fun _ _ => 3)
        (fun p _ => if p = 1 then 1 else 2) [0] (fun _ => some 3)
      = ((1 : ℝ), 0) := by
  simpa using exact_mean_lowest_variance_selected (fun k => ((k : ℝ), 0)) 2
    (fun _ _ => 3) (fun p _ => if p = 1 then 1 else 2) 0 1 (fun _ => some 3)
    (by norm_num) rfl (by simp) (by
      intro p hp hne
      interval_cases p
      · simp
      · exact absurd rfl hne)

/-! ## Per-location scan averaging with `np.nanmean` (C5) -/

/-- Running sum and count of the present (non-`NaN`) readings, as `np.nanmean`
accumulates them (a `NaN` entry contributes to neither). -/
def nanmeanAcc (xs : List (Option ℝ)) : ℝ × ℕ :=
  xs.foldl (fun sc x => match x with
    | none => sc
    | some v => (sc.1 + v, sc.2 + 1)) (0, 0)

/-- Embedding of `np.nanmean` over one location's scans for one AP: the mean of the
non-`NaN` readings, `NaN` (here `none`) when the slice is empty. -/
def nanmean (xs : List (Option ℝ)) : Option ℝ :=
  if (nanmeanAcc xs).2 = 0 then none
  else some ((nanmeanAcc xs).1 / ((nanmeanAcc xs).2 : ℝ))

lemma foldl_nanmean_step (xs : List (Option ℝ)) (s : ℝ) (c : ℕ) :
    xs.foldl (fun sc x => match x with
      | none => sc
      | some v => (sc.1 + v, sc.2 + 1)) (s, c)
      = (s + (xs.filterMap id).sum, c + (xs.filterMap id).length) := by
  induction xs generalizing s c with
  | nil => simp
  | cons a l ih =>
      cases a with
      | none => simpa using ih s c
      | some v =>
          simp only [List.foldl_cons]
          rw [ih]
          simp only [List.filterMap_cons, id, List.sum_cons, List.length_cons,
            Prod.mk.injEq]
          constructor
          · ring
          · omega

lemma nanmeanAcc_spec (xs : List (Option ℝ)) :
    nanmeanAcc xs = ((xs.filterMap id).sum, (xs.filterMap id).length) := by
  simpa using foldl_nanmean_step xs 0 0

/-- **C5.** The per-AP averaged RSS at a location is the arithmetic mean of
that location's present readings — missing readings are dropped pointwise,
never imputed — and it is missing exactly when every reading is missing. -/
theorem nanmean_is_mean_of_present_readings (xs : List (Option ℝ)) :
    (nanmean xs = none ↔ ∀ x ∈ xs, x = none)
    ∧ ((¬ ∀ x ∈ xs, x = none) →
        nanmean xs
          = some ((xs.filterMap id).sum / ((xs.filterMap id).length : ℝ))) := by
  have hacc := nanmeanAcc_spec xs
  have hnilIff : xs.filterMap id = [] ↔ ∀ x ∈ xs, x = none := by
    rw [List.filterMap_eq_nil_iff]
    constructor
    · intro h x hx; simpa using h x hx
    · intro h x hx; simpa using h x hx
  constructor
  · constructor
    · intro hnone
      unfold nanmean at hnone
      by_cases h : (nanmeanAcc xs).2 = 0
      · rw [hacc] at h
        exact hnilIff.mp (List.length_eq_zero.mp h)
      · rw [if_neg h] at hnone
        exact absurd hnone (by simp)
    · intro hall
      unfold nanmean
      rw [if_pos (by rw [hacc]; simpa using congrArg List.length (hnilIff.mpr hall))]
  · intro hnot
    unfold nanmean
    have hne : (nanmeanAcc xs).2 ≠ 0 := by
      rw [hacc]
      intro h
      exact hnot (hnilIff.mp (List.length_eq_zero.mp h))
    rw [if_neg hne, hacc]

/-- Concrete instance of `nanmean_is_mean_of_present_readings`. -/
theorem nanmean_is_mean_of_present_readings_witness :
    nanmean [some 2, none, some 4]
      = some ((([some 2, none, some 4] : List (Option ℝ)).filterMap id).sum
          / ((([some 2, none, some 4] : List (Option ℝ)).filterMap id).length : ℝ)) :=
  (nanmean_is_mean_of_present_readings [some 2, none, some 4]).2
    (by intro h; exact absurd (h (some 2) (by simp)) (by simp))

/-! ## Cross-validation error averaging (C6) -/

/-- Embedding of `np.mean` of a list of reals. -/
def npMean (xs : List ℝ) : ℝ := xs.sum / (xs.length : ℝ)

/-- Embedding of `np.linalg.norm(Y_testing - Y_hat, axis=0)` on paired 2D columns: the
per-sample column 2-norms. -/
def normErrors (Y_testing Y_hat : List (ℝ × ℝ)) : List ℝ :=
  List.zipWith (fun a b => Real.sqrt ((a.1 - b.1) ^ 2 + (a.2 - b.2) ^ 2))
    Y_testing Y_hat

/-- The k-fold loop's accumulator: `error_sum += np.mean(errors)` per fold;
each fold is a pair (true test coordinates, inferred coordinates). -/
def error_sum (folds : List (List (ℝ × ℝ) × List (ℝ × ℝ))) : ℝ :=
  folds.foldl (fun acc f => acc + npMean (normErrors f.1 f.2)) 0

/-- Embedding of `cross_validation_error = error_sum / 10`. -/
def cross_validation_error (folds : List (List (ℝ × ℝ) × List (ℝ × ℝ))) : ℝ :=
  error_sum folds / 10

/-- Spec-side Euclidean distance between true and inferred 2D coordinates. -/
def euclidDist (a b : ℝ × ℝ) : ℝ :=
  Real.sqrt ((a.1 - b.1) ^ 2 + (a.2 - b.2) ^ 2)

lemma foldl_add_eq_sum {α : Type} (g : α → ℝ) (l : List α) (s : ℝ) :
    l.foldl (fun acc x => acc + g x) s = s + (l.map g).sum := by
  induction l generalizing s with
  | nil => simp
  | cons a l ih => simp [List.foldl_cons, ih, add_assoc]

/-- **C6.** The reported 10-fold cross-validation error is the arithmetic mean
of the 10 per-fold mean errors, each being the mean over the fold's test
samples of the Euclidean distance between true and inferred coordinates. -/
theorem cv_error_is_mean_of_fold_means
    (folds : List (List (ℝ × ℝ) × List (ℝ × ℝ))) (h : folds.length = 10) :
    cross_validation_error folds
      = npMean (folds.map (fun f => npMean (List.zipWith euclidDist f.1 f.2))) := by
  unfold cross_validation_error error_sum
  rw [foldl_add_eq_sum (fun f => npMean (normErrors f.1 f.2)) folds 0, zero_add]
  unfold npMean normErrors euclidDist
  rw [List.length_map, h]
  norm_num

/-- Concrete instance of `cv_error_is_mean_of_fold_means`. -/
theorem cv_error_is_mean_of_fold_means_witness :
    cross_validation_error
        (List.replicate 10 ([((0:ℝ), (0:ℝ))], [((0:ℝ), (0:ℝ))]))
      = npMean ((List.replicate 10 ([((0:ℝ), (0:ℝ))], [((0:ℝ), (0:ℝ))])).map
          (fun f => npMean (List.zipWith euclidDist f.1 f.2))) :=
  cv_error_is_mean_of_fold_means _ (by simp)

/-! ## Failure semantics of the scorer (C7)

`math.sqrt` raises `ValueError: math domain error` on a negative argument,
and `scipy.stats.multivariate_normal.logpdf` rejects a non-positive scalar
covariance (a negative one is not positive semidefinite; a zero one is
singular).  The fallible scorer threads these error branches explicitly. -/

/-- Embedding of `math.sqrt`: domain error on negatives, otherwise the square root. -/
def mathSqrt (x : ℝ) : Except String ℝ :=
  if x < 0 then .error "math domain error" else .ok (Real.sqrt x)

/-- Scalar `multivariate_normal.logpdf` with covariance `c`: an error branch
for a non-positive covariance, otherwise the log-density value. -/
def mvnLogpdfE (x m c : ℝ) : Except String ℝ :=
  if c ≤ 0 then .error "singular covariance" else .ok (mvnLogpdfVal x m c)

/-- The scorer's inner loop with the library error branches kept. -/
def logpdfSumE (obs : ℕ → Option ℝ) (mean var : ℕ → ℕ → ℝ)
    (gpIndex : List ℕ) (p : ℕ) : Except String ℝ :=
  (List.range gpIndex.length).foldlM
    (fun s k =>
      match obs (gpIndex.getD k 0) with
      | none => pure s
      | some rss => do
          let c ← mathSqrt (var p k)
          let l ← mvnLogpdfE rss (mean p k) c
          pure (s + l))
    0

/-- The whole per-sample MAP estimation with the error branches kept: score
every grid point, then return the arg-max grid point's coordinates. -/
def mapEstimateE (grid : ℕ → ℝ × ℝ) (nGrid : ℕ) (mean var : ℕ → ℕ → ℝ)
    (gpIndex : List ℕ) (obs : ℕ → Option ℝ) : Except String (ℝ × ℝ) := do
  let scores ← (List.range nGrid).mapM (fun p => logpdfSumE obs mean var gpIndex p)
  pure (grid (npArgmax (fun p => scores.getD p 0) nGrid))

lemma foldlM_ok {α β : Type} (f : β → α → Except String β) (g : β → α → β)
    (l : List α) (H : ∀ b, ∀ a ∈ l, f b a = .ok (g b a)) :
    ∀ b, l.foldlM f b = .ok (l.foldl g b) := by
  induction l with
  | nil => intro b; rfl
  | cons a l ih =>
      intro b
      rw [List.foldlM_cons, H b a (List.mem_cons_self a l)]
      show l.foldlM f (g b a) = _
      rw [ih (fun b' a' ha' => H b' a' (List.mem_cons_of_mem a ha')) (g b a)]
      rfl

lemma mapM_ok {α β : Type} (f : α → Except String β) (g : α → β)
    (l : List α) (H : ∀ a ∈ l, f a = .ok (g a)) :
    l.mapM f = .ok (l.map g) := by
  induction l with
  | nil => rfl
  | cons a l ih =>
      rw [List.mapM_cons, H a (List.mem_cons_self a l)]
      show l.mapM f >>= _ = _
      rw [ih (fun a' ha' => H a' (List.mem_cons_of_mem a ha'))]
      rfl

/-- With positive probed variances, the fallible inner loop reaches no error
branch and returns the pure summed log-density. -/
lemma logpdfSumE_ok (obs : ℕ → Option ℝ) (mean var : ℕ → ℕ → ℝ)
    (gpIndex : List ℕ) (p : ℕ) (hvar : ∀ k < gpIndex.length, 0 < var p k) :
    logpdfSumE obs mean var gpIndex p = .ok (logpdfSum obs mean var gpIndex p) := by
  unfold logpdfSumE logpdfSum
  apply foldlM_ok
  intro b a ha
  have hv := hvar a (List.mem_range.mp ha)
  have h1 : ¬ var p a < 0 := not_lt.mpr hv.le
  have h2 : ¬ Real.sqrt (var p a) ≤ 0 := not_le.mpr (Real.sqrt_pos.mpr hv)
  cases hobs : obs (gpIndex.getD a 0) with
  | none => rfl
  | some rss =>
      have e1 : mathSqrt (var p a) = .ok (Real.sqrt (var p a)) := if_neg h1
      have e2 : mvnLogpdfE rss (mean p a) (Real.sqrt (var p a))
          = .ok (mvnLogpdfVal rss (mean p a) (Real.sqrt (var p a))) := if_neg h2
      show (do
        let c ← mathSqrt (var p a)
        let l ← mvnLogpdfE rss (mean p a) c
        pure (b + l) : Except String ℝ) = _
      rw [e1]
      show (do
        let l ← mvnLogpdfE rss (mean p a) (Real.sqrt (var p a))
        pure (b + l) : Except String ℝ) = _
      rw [e2]
      rfl

/-- **C7 (amended).** When every probed predicted variance is positive, MAP
estimation completes without reaching an error branch and returns the pure
estimate; `scorer_error_on_negative_variance` shows it does fail on a
negative variance via `math.sqrt`. -/
theorem scorer_ok_of_positive_variances (grid : ℕ → ℝ × ℝ) (nGrid : ℕ)
    (mean var : ℕ → ℕ → ℝ) (gpIndex : List ℕ) (obs : ℕ → Option ℝ)
    (hvar : ∀ p < nGrid, ∀ k < gpIndex.length, 0 < var p k) :
    mapEstimateE grid nGrid mean var gpIndex obs
      = .ok (mapEstimate grid nGrid mean var gpIndex obs) := by
  unfold mapEstimateE
  rw [mapM_ok (fun p => logpdfSumE obs mean var gpIndex p)
    (fun p => logpdfSum obs mean var gpIndex p) (List.range nGrid)
    (fun p hp => logpdfSumE_ok obs mean var gpIndex p
      (hvar p (List.mem_range.mp hp)))]
  show Except.ok _ = Except.ok _
  unfold mapEstimate
  congr 1
  apply congrArg
  apply npArgmax_congr
  intro i hi
  rw [List.getD_eq_getElem?_getD, List.getElem?_map, List.getElem?_range hi]
  rfl

/-- Concrete instance of `scorer_ok_of_positive_variances`. -/
theorem scorer_ok_of_positive_variances_witness :
    mapEstimateE (fun k => ((k : ℝ), 0)) 2 (fun _ _ => 0) (fun _ _ => 1) [0]
        (fun _ => some 0)
      = .ok (mapEstimate (fun k => ((k : ℝ), 0)) 2 (fun _ _ => 0)
          (fun _ _ => 1) [0] (fun _ => some 0)) :=
  scorer_ok_of_positive_variances (fun k => ((k : ℝ), 0)) 2 (fun _ _ => 0)
    (fun _ _ => 1) [0] (fun _ => some 0) (fun p _ k _ => by norm_num)

/-- The claim that the scorer never errors for every variance array fails: a
negative predicted variance reaches `math.sqrt`'s domain-error branch. -/
theorem scorer_error_on_negative_variance :
    mapEstimateE (fun _ => ((0:ℝ), 0)) 1 (fun _ _ => 0) (fun _ _ => -1) [0]
      (fun _ => some 0) = .error "math domain error" := by
  have hneg : ((-1 : ℝ)) < 0 := by norm_num
  have h1 : mathSqrt (-1) = .error "math domain error" := if_pos hneg
  have hsum : logpdfSumE (fun _ => some 0) (fun _ _ => 0) (fun _ _ => -1) [0] 0
      = .error "math domain error" := by
    unfold logpdfSumE
    simp only [List.length_cons, List.length_nil, List.range_succ, List.range_zero,
      List.nil_append, List.foldlM_cons]
    rw [h1]
    rfl
  unfold mapEstimateE
  simp only [List.range_succ, List.range_zero, List.nil_append, List.mapM_cons]
  rw [hsum]
  rfl

/-! ## The `KFold(n_splits=10)` partition (C8)

The fold generator is `sklearn.model_selection.KFold` with its defaults
(`shuffle=False`): the `n` sample indices are split into 10 contiguous test
folds, the first `n % 10` of size `n / 10 + 1` and the rest of size `n / 10`. -/

/-- The 10 fold sizes assigned by `KFold(n_splits=10)`. -/
def kfoldFoldSizes (n : ℕ) : List ℕ :=
  (List.range 10).map (fun i => n / 10 + if i < n % 10 then 1 else 0)

/-- Consecutive index blocks of the given sizes, starting at `s`. -/
def chunksFrom : List ℕ → ℕ → List (List ℕ)
  | [], _ => []
  | k :: ks, s => List.range' s k :: chunksFrom ks (s + k)

/-- The 10 test folds produced by `KFold(n_splits=10)` over `n` samples. -/
def kfoldTestFolds (n : ℕ) : List (List ℕ) :=
  chunksFrom (kfoldFoldSizes n) 0

lemma chunksFrom_flatten (ks : List ℕ) :
    ∀ s, (chunksFrom ks s).flatten = List.range' s ks.sum := by
  induction ks with
  | nil => intro s; simp [chunksFrom]
  | cons k ks ih =>
      intro s
      show (List.range' s k :: chunksFrom ks (s + k)).flatten = _
      rw [List.flatten_cons, ih (s + k), List.sum_cons]
      have h := List.range'_append s k ks.sum 1
      simp only [one_mul] at h
      rw [h, Nat.add_comm]

lemma chunksFrom_map_length (ks : List ℕ) :
    ∀ s, (chunksFrom ks s).map List.length = ks := by
  induction ks with
  | nil => intro s; rfl
  | cons k ks ih => intro s; simp [chunksFrom, List.length_range', ih]

lemma sum_map_threshold (m r q : ℕ) :
    ((List.range m).map (fun i => q + if i < r then 1 else 0)).sum
      = m * q + min m r := by
  induction m with
  | zero => simp
  | succ m ih =>
      rw [List.range_succ, List.map_append, List.sum_append, ih]
      simp only [List.map_cons, List.map_nil, List.sum_cons, List.sum_nil]
      by_cases h : m < r
      · rw [if_pos h, Nat.succ_mul]; omega
      · rw [if_neg h, Nat.succ_mul]; omega

lemma kfoldFoldSizes_sum (n : ℕ) : (kfoldFoldSizes n).sum = n := by
  unfold kfoldFoldSizes
  rw [sum_map_threshold]
  have h1 : n % 10 < 10 := Nat.mod_lt n (by norm_num)
  omega

lemma countP_range_lt (m r : ℕ) :
    (List.range m).countP (fun i => decide (i < r)) = min m r := by
  induction m with
  | zero => simp
  | succ m ih =>
      rw [List.range_succ, List.countP_append, ih]
      by_cases h : m < r <;> simp [List.countP_cons, h] <;> omega

lemma countP_kfoldFoldSizes (n : ℕ) :
    (kfoldFoldSizes n).countP (fun k => k == n / 10 + 1) = n % 10 := by
  unfold kfoldFoldSizes
  rw [List.countP_map]
  rw [List.countP_congr (q := fun i => decide (i < n % 10)) ?_]
  · rw [countP_range_lt]
    have h1 : n % 10 < 10 := Nat.mod_lt n (by norm_num)
    omega
  · intro i _
    by_cases h : i < n % 10
    · simp [h]
    · simp [h]

/-- **C8.** For `n ≥ 10` samples, `KFold(n_splits=10)` splits the `n` indices
into exactly 10 pairwise-disjoint folds covering all indices, each of size
`n / 10` or `n / 10 + 1`, with the `n % 10` oversized folds absorbing the
remainder. -/
theorem kfold_partitions_indices (n : ℕ) (_h : 10 ≤ n) :
    (kfoldTestFolds n).length = 10
    ∧ (kfoldTestFolds n).flatten = List.range n
    ∧ List.Pairwise List.Disjoint (kfoldTestFolds n)
    ∧ (∀ f ∈ kfoldTestFolds n, f.length = n / 10 ∨ f.length = n / 10 + 1)
    ∧ (kfoldTestFolds n).countP (fun f => f.length == n / 10 + 1) = n % 10 := by
  have hflat : (kfoldTestFolds n).flatten = List.range n := by
    unfold kfoldTestFolds
    rw [chunksFrom_flatten (kfoldFoldSizes n) 0, kfoldFoldSizes_sum,
      List.range_eq_range']
  have hmaplen : (kfoldTestFolds n).map List.length = kfoldFoldSizes n :=
    chunksFrom_map_length (kfoldFoldSizes n) 0
  refine ⟨?_, hflat, ?_, ?_, ?_⟩
  · have h := congrArg List.length hmaplen
    simpa [kfoldFoldSizes] using h
  · have hnodup : (kfoldTestFolds n).flatten.Nodup := by
      rw [hflat]; exact List.nodup_range n
    exact (List.nodup_flatten.mp hnodup).2
  · intro f hf
    have hmem : f.length ∈ kfoldFoldSizes n := by
      rw [← hmaplen]; exact List.mem_map_of_mem List.length hf
    unfold kfoldFoldSizes at hmem
    rcases List.mem_map.mp hmem with ⟨i, _, hi⟩
    by_cases h : i < n % 10
    · right; rw [← hi, if_pos h]
    · left
      rw [← hi, if_neg h]
      omega
  · have h := List.countP_map (fun k => k == n / 10 + 1) List.length
      (kfoldTestFolds n)
    rw [hmaplen] at h
    show List.countP ((fun k => (k == n / 10 + 1 : Bool)) ∘ List.length)
      (kfoldTestFolds n) = n % 10
    rw [← h]
    exact countP_kfoldFoldSizes n

/-- Concrete instance of `kfold_partitions_indices` at `n = 23`. -/
theorem kfold_partitions_indices_witness :
    (kfoldTestFolds 23).length = 10
    ∧ (kfoldTestFolds 23).flatten = List.range 23
    ∧ List.Pairwise List.Disjoint (kfoldTestFolds 23)
    ∧ (∀ f ∈ kfoldTestFolds 23, f.length = 23 / 10 ∨ f.length = 23 / 10 + 1)
    ∧ (kfoldTestFolds 23).countP (fun f => f.length == 23 / 10 + 1) = 23 % 10 :=
  kfold_partitions_indices 23 (by norm_num)

/-! ## The candidate grid and its bounding box (C10) -/

/-- Embedding of `np.amin` of a coordinate list. -/
def amin (xs : List ℝ) : ℝ := xs.foldl min (xs.headD 0)

/-- Embedding of `np.amax` of a coordinate list. -/
def amax (xs : List ℝ) : ℝ := xs.foldl max (xs.headD 0)

/-- Embedding of `np.linspace a b n` with endpoint: point `i` is `a + i*(b-a)/(n-1)`. -/
def linspace (a b : ℝ) (n : ℕ) (i : ℕ) : ℝ :=
  a + (i : ℝ) * ((b - a) / ((n - 1 : ℕ) : ℝ))

/-- Entry `k` of the flattened 50×50 `np.meshgrid` of
`linspace(min_X, max_X, 50)` against `linspace(min_Y, max_Y, 50)`:
`grid[k] = (xs[k % 50], ys[k / 50])`. -/
def gridPoint (minX maxX minY maxY : ℝ) (k : ℕ) : ℝ × ℝ :=
  (linspace minX maxX 50 (k % 50), linspace minY maxY 50 (k / 50))

lemma foldl_min_le (l : List ℝ) : ∀ a : ℝ, l.foldl min a ≤ a := by
  induction l with
  | nil => intro a; exact le_refl a
  | cons x l ih => intro a; exact le_trans (ih (min a x)) (min_le_left a x)

lemma le_foldl_max (l : List ℝ) : ∀ a : ℝ, a ≤ l.foldl max a := by
  induction l with
  | nil => intro a; exact le_refl a
  | cons x l ih => intro a; exact le_trans (le_max_left a x) (ih (max a x))

lemma amin_le_amax (xs : List ℝ) : amin xs ≤ amax xs :=
  le_trans (foldl_min_le xs (xs.headD 0)) (le_foldl_max xs (xs.headD 0))

lemma linspace_bounds (a b : ℝ) (hab : a ≤ b) (i : ℕ) (hi : i ≤ 49) :
    a ≤ linspace a b 50 i ∧ linspace a b 50 i ≤ b := by
  unfold linspace
  have hcast : ((50 - 1 : ℕ) : ℝ) = 49 := by norm_num
  rw [hcast]
  have hnn : (0:ℝ) ≤ (b - a) / 49 := div_nonneg (by linarith) (by norm_num)
  constructor
  · have h0 : (0:ℝ) ≤ (i:ℝ) * ((b - a) / 49) :=
      mul_nonneg (Nat.cast_nonneg i) hnn
    linarith
  · have hile : (i:ℝ) ≤ 49 := by exact_mod_cast hi
    have h1 : (i:ℝ) * ((b - a) / 49) ≤ 49 * ((b - a) / 49) :=
      mul_le_mul_of_nonneg_right hile hnn
    have h2 : (49:ℝ) * ((b - a) / 49) = b - a := by ring
    linarith

lemma linspace_zero (a b : ℝ) : linspace a b 50 0 = a := by
  unfold linspace
  simp

lemma linspace_last (a b : ℝ) : linspace a b 50 49 = b := by
  unfold linspace
  have hcast : ((50 - 1 : ℕ) : ℝ) = 49 := by norm_num
  rw [hcast]
  ring

/-- **C10.** The inferred location is always one of the 50×50 grid points,
and every grid point — hence every inferred location — lies inside the
bounding box of the surveyed coordinates, whose corners the grid attains
exactly. -/
theorem grid_spans_bounding_box (xc yc : List ℝ) (mean var : ℕ → ℕ → ℝ)
    (gpIndex : List ℕ) (obs : ℕ → Option ℝ) :
    (∃ k, k < 2500
      ∧ mapEstimate (gridPoint (amin xc) (amax xc) (amin yc) (amax yc)) 2500
            mean var gpIndex obs
          = gridPoint (amin xc) (amax xc) (amin yc) (amax yc) k)
    ∧ (∀ k < 2500,
        amin xc ≤ (gridPoint (amin xc) (amax xc) (amin yc) (amax yc) k).1
        ∧ (gridPoint (amin xc) (amax xc) (amin yc) (amax yc) k).1 ≤ amax xc
        ∧ amin yc ≤ (gridPoint (amin xc) (amax xc) (amin yc) (amax yc) k).2
        ∧ (gridPoint (amin xc) (amax xc) (amin yc) (amax yc) k).2 ≤ amax yc)
    ∧ gridPoint (amin xc) (amax xc) (amin yc) (amax yc) 0 = (amin xc, amin yc)
    ∧ gridPoint (amin xc) (amax xc) (amin yc) (amax yc) 2499
        = (amax xc, amax yc) := by
  refine ⟨⟨npArgmax (logpdfSum obs mean var gpIndex) 2500,
    npArgmax_lt _ 2500 (by norm_num), rfl⟩, ?_, ?_, ?_⟩
  · intro k hk
    have hm : k % 50 ≤ 49 := by omega
    have hd : k / 50 ≤ 49 := by omega
    have hx := linspace_bounds (amin xc) (amax xc) (amin_le_amax xc) (k % 50) hm
    have hy := linspace_bounds (amin yc) (amax yc) (amin_le_amax yc) (k / 50) hd
    exact ⟨hx.1, hx.2, hy.1, hy.2⟩
  · unfold gridPoint
    norm_num [linspace_zero]
  · unfold gridPoint
    norm_num [linspace_last]

/-- Concrete instance of `grid_spans_bounding_box`. -/
theorem grid_spans_bounding_box_witness :
    amin [(0:ℝ), 1]
        ≤ (gridPoint (amin [(0:ℝ), 1]) (amax [(0:ℝ), 1]) (amin [(2:ℝ), 3])
            (amax [(2:ℝ), 3]) 7).1
    ∧ (gridPoint (amin [(0:ℝ), 1]) (amax [(0:ℝ), 1]) (amin [(2:ℝ), 3])
          (amax [(2:ℝ), 3]) 7).1 ≤ amax [(0:ℝ), 1]
    ∧ amin [(2:ℝ), 3]
        ≤ (gridPoint (amin [(0:ℝ), 1]) (amax [(0:ℝ), 1]) (amin [(2:ℝ), 3])
            (amax [(2:ℝ), 3]) 7).2
    ∧ (gridPoint (amin [(0:ℝ), 1]) (amax [(0:ℝ), 1]) (amin [(2:ℝ), 3])
          (amax [(2:ℝ), 3]) 7).2 ≤ amax [(2:ℝ), 3] :=
  (grid_spans_bounding_box [(0:ℝ), 1] [(2:ℝ), 3] (fun _ _ => 0) (fun _ _ => 1)
    [] (fun _ => none)).2.1 7 (by norm_num)

end

end MDA
